import Mathlib

/-!
Shallow embedding of the ticket-store ABCI application
(src/ticketstore/ticketstore.go) and proofs about its specification.

Modelling conventions:
* Go `uint64` fields are modelled as `Nat` (JSON decoding guarantees the
  values fit in 64 bits; no arithmetic in the program can overflow them),
  Go `int64` counters (`size`, `height`) as `Int`.
* Go maps with zero-value lookup (`tickets`, `history`) are modelled as
  total functions; `tickets` returns the zero ticket for absent keys,
  `history` is `Int → Option snapshot` with the zero snapshot supplied at
  the lookup site.
* Byte slices are `List Nat` (each entry `< 256` where it matters).
* External cryptographic primitives (`sha3.SoliditySHA3`,
  `crypto.SigToPub`/`PubkeyToAddress`, cbergoon's internal sha256
  combination) are abstracted into a `Prims` record of function
  parameters; everything proved holds for every instantiation.
* Error returns become `Except`; the reachable runtime panic in
  `getOwnerProofSigner` (index out of range on `bytesProof[64]`) is an
  explicit `panic`/`crash` constructor.
-/

namespace TicketStore

/-- Error values of the application (`ticketError` values and propagated
library errors), carrying the Go error messages. -/
inductive TErr where
  | badAddress
  | badNonce
  | badSignature
  | notFound
  | other (msg : String)
deriving DecidableEq

/-- Go `Error()` string of each error value. -/
def TErr.msg : TErr → String
  | .badAddress => "Ticket must have an address"
  | .badNonce => "Ticket nonce must increase on resale"
  | .badSignature => "Resale must be signed by the previous owner"
  | .notFound => "Ticket could not be found"
  | .other m => m

/-- The on-wire transaction (`TicketTx` struct in the source). -/
structure TicketTx where
  Id : Nat
  Nonce : Nat
  Details : String
  OwnerAddr : String
  PrevOwnerProof : String
deriving DecidableEq

/-- Zero value of `TicketTx` (what a Go map lookup of an absent id gives). -/
def zeroTx : TicketTx := ⟨0, 0, "", "", ""⟩

/-- In-state ticket record (`ticket` struct): latest transaction plus the
heights at which the ticket changed. -/
structure ticket where
  tx : TicketTx
  ChangeHeights : List Int
deriving DecidableEq

/-- Zero value of `ticket`. -/
def zeroTicket : ticket := ⟨zeroTx, []⟩

/-- A Merkle tree as stored in a snapshot: the cbergoon `merkletree` keeps
the ordered leaf contents (plus derived hashes, recomputed here on
demand). -/
structure MTree where
  content : List TicketTx

/-- Per-height snapshot (`snapshot` struct): a copy of the ticket map plus
the block's Merkle tree. -/
structure snapshot where
  tickets : Nat → ticket
  tree : MTree

/-- Zero value of `snapshot` (absent `history` key): nil map, empty tree. -/
def zeroSnapshot : snapshot := ⟨fun _ => zeroTicket, ⟨[]⟩⟩

/-- Application state (`state` struct). -/
structure state where
  size : Int
  height : Int
  rootHash : List Nat
  tickets : Nat → ticket
  history : Int → Option snapshot
  tempTreeContent : List TicketTx

/-- State built by `NewTicketStoreApplication`: empty maps, zero counters,
nil root hash. -/
def freshState : state :=
  ⟨0, 0, [], fun _ => zeroTicket, fun _ => none, []⟩

/-- External primitives supplied by dependencies (not part of this
repository): the signature-recovery composite
`crypto.PubkeyToAddress(*crypto.SigToPub(hash, sig)).Hex()` (may fail),
the `sha3.SoliditySHA3` packed-tuple hash used both as signing digest and
as Merkle leaf hash (`TicketTx.CalculateHash`, which never fails in the
source), and cbergoon's internal-node hash of the concatenated child
hashes. -/
structure Prims where
  sigToAddr : List Nat → List Nat → Except String String
  calcHash : TicketTx → List Nat
  combine : List Nat → List Nat → List Nat

/-- Value of a single hexadecimal digit, as accepted by Go's
`encoding/hex`. -/
def hexDigitVal (c : Char) : Option Nat :=
  if '0' ≤ c ∧ c ≤ '9' then some (c.toNat - 48)
  else if 'a' ≤ c ∧ c ≤ 'f' then some (c.toNat - 87)
  else if 'A' ≤ c ∧ c ≤ 'F' then some (c.toNat - 55)
  else none

/-- Decode pairs of hex digits into bytes; `none` on an odd count or an
invalid digit (collapsing Go's distinct syntax/odd-length errors). -/
def hexPairs : List Char → Option (List Nat)
  | [] => some []
  | [_] => none
  | a :: b :: rest =>
    match hexDigitVal a, hexDigitVal b, hexPairs rest with
    | some x, some y, some r => some ((x * 16 + y) :: r)
    | _, _, _ => none

/-- Model of `hexutil.Decode`: requires a `0x`/`0X` prefix, rejects the
empty string, decodes the rest as bytes. -/
def hexDecode (s : String) : Except String (List Nat) :=
  match s.data with
  | [] => .error "empty hex string"
  | '0' :: 'x' :: rest =>
    match hexPairs rest with
    | some bs => .ok bs
    | none => .error "invalid hex string"
  | '0' :: 'X' :: rest =>
    match hexPairs rest with
    | some bs => .ok bs
    | none => .error "invalid hex string"
  | _ => .error "hex string without 0x prefix"

/-- Lowercase hex character of a value `< 16`. -/
def hexDigitChar (n : Nat) : Char :=
  if n < 10 then Char.ofNat (48 + n) else Char.ofNat (87 + n)

/-- Model of `hexutil.Encode`: `0x`-prefixed lowercase hex of the bytes. -/
def hexEncode (bs : List Nat) : String :=
  "0x" ++ String.mk ((bs.map (fun b => [hexDigitChar (b / 16 % 16), hexDigitChar (b % 16)])).flatten)

/-- Model of `strings.ToLower` (character-wise lowercasing; all addresses
involved are ASCII). -/
def goToLower (s : String) : String := String.mk (s.data.map Char.toLower)

/-- Outcome of `getOwnerProofSigner`: a recovered (lowercased) address, a
propagated error, or the runtime panic the source can hit. -/
inductive SigOut where
  | ok (signer : String)
  | err (msg : String)
  | panicked

/-- Model of `TicketTx.getOwnerProofSigner`: hex-decode the proof, subtract
27 from byte 64 (Go byte arithmetic wraps mod 256; reading index 64 of a
shorter slice is an index-out-of-range panic), recover the signer address
and lowercase it. -/
def getOwnerProofSigner (p : Prims) (tk : TicketTx) (prevTicketHash : List Nat) : SigOut :=
  match hexDecode tk.PrevOwnerProof with
  | .error e => .err e
  | .ok bytesProof =>
    if bytesProof.length < 65 then .panicked
    else
      let b := bytesProof.getD 64 0
      let bytesProof := bytesProof.set 64 ((b + 229) % 256)
      match p.sigToAddr prevTicketHash bytesProof with
      | .error e => .err e
      | .ok addr => .ok (goToLower addr)

/-- Outcome of `validate`. -/
inductive VOut where
  | ok
  | err (e : TErr)
  | panicked
deriving DecidableEq

/-- Model of `TicketTx.validate` (the error branch after `CalculateHash`
is dead code in the source: that function always returns a nil error). -/
def validate (p : Prims) (tk prevTicket : TicketTx) : VOut :=
  if tk.OwnerAddr = "" then .err .badAddress
  else if tk.Nonce ≤ prevTicket.Nonce then .err .badNonce
  else if prevTicket.OwnerAddr ≠ "" then
    match getOwnerProofSigner p tk (p.calcHash prevTicket) with
    | .panicked => .panicked
    | .err m => .err (.other m)
    | .ok signer =>
      if signer ≠ goToLower prevTicket.OwnerAddr then .err .badSignature else .ok
  else .ok

/-- Result of a DeliverTx/CheckTx callback: a coded response (with the
post-call state threaded explicitly), or a process crash from the
reachable panic. -/
inductive DOut where
  | resp (code : Nat) (log : String) (st : state)
  | crash

/-- Model of `TicketStoreApplication.DeliverTx`. The raw transaction
bytes appear only through the result of `json.Unmarshal`, passed in as
`parsed` (Go's decoder zero-fills absent fields and fails only on
malformed JSON). -/
def DeliverTx (p : Prims) (parsed : Except String TicketTx) (st : state) : DOut :=
  match parsed with
  | .error e => .resp 1 e st
  | .ok ticketTx =>
    let previousTicket := st.tickets ticketTx.Id
    match validate p ticketTx previousTicket.tx with
    | .panicked => .crash
    | .err e => .resp 2 e.msg st
    | .ok =>
      let changeHeights := previousTicket.ChangeHeights ++ [st.height + 1]
      .resp 0 ""
        { st with
          size := st.size + 1
          tickets := fun i => if i = ticketTx.Id then ⟨ticketTx, changeHeights⟩ else st.tickets i
          tempTreeContent := st.tempTreeContent ++ [ticketTx] }

/-- Model of `TicketStoreApplication.CheckTx`; the body performs no
assignment to the state, so the threaded state is returned unchanged. -/
def CheckTx (p : Prims) (parsed : Except String TicketTx) (st : state) : DOut :=
  match parsed with
  | .error e => .resp 1 e st
  | .ok ticketTx =>
    match validate p ticketTx (st.tickets ticketTx.Id).tx with
    | .panicked => .crash
    | .err e => .resp 2 e.msg st
    | .ok => .resp 0 "" st

/-- One level-up step of cbergoon's `buildIntermediate`: children are
paired in order; a trailing unpaired node is paired with itself. -/
def nextLevel (p : Prims) : List (List Nat) → List (List Nat)
  | [] => []
  | [x] => [p.combine x x]
  | x :: y :: rest => p.combine x y :: nextLevel p rest

theorem nextLevel_length_le (p : Prims) : ∀ l : List (List Nat), (nextLevel p l).length ≤ l.length
  | [] => le_refl _
  | [_] => le_refl _
  | _ :: _ :: rest => by
    have h := nextLevel_length_le p rest
    simp only [nextLevel, List.length_cons]
    omega

/-- Leaf hashes of the tree over the given contents, with the last leaf
duplicated when their number is odd (cbergoon's `buildWithContent`). -/
def leafHashes (p : Prims) (content : List TicketTx) : List (List Nat) :=
  let hs := content.map p.calcHash
  if hs.length % 2 = 1 then hs ++ [hs.getLastD []] else hs

/-- Root hash of a level, folding `nextLevel` until one node is left.
The empty level gives the nil hash of the zero tree. The fuel argument
keeps the recursion structural; since `nextLevel` strictly shrinks any
level of two or more nodes (`nextLevel_length_le`), fuel equal to the
level's length is never exhausted. -/
def rootFromLevel (p : Prims) : Nat → List (List Nat) → List Nat
  | _, [] => []
  | _, [x] => x
  | 0, x :: _ :: _ => x
  | fuel + 1, x :: y :: rest => rootFromLevel p fuel (nextLevel p (x :: y :: rest))

/-- Root of the Merkle tree whose leaves are the given contents in order
(`merkletree.NewTree(...)` followed by `tree.Root.Hash`). -/
def treeRoot (p : Prims) (content : List TicketTx) : List Nat :=
  rootFromLevel p (leafHashes p content).length (leafHashes p content)

/-- Model of `TicketStoreApplication.Commit`, returning the response data
(the app-hash) together with the new state. The Go code deep-copies the
ticket map into the snapshot; with maps as functions the copy is the same
function. -/
def Commit (p : Prims) (st : state) : List Nat × state :=
  let height := st.height + 1
  if st.tempTreeContent.length > 0 then
    let root := treeRoot p st.tempTreeContent
    let st' : state :=
      { st with
        height := height
        rootHash := root
        history := fun k => if k = height then some ⟨st.tickets, ⟨st.tempTreeContent⟩⟩ else st.history k
        tempTreeContent := [] }
    (st'.rootHash, st')
  else
    let st' : state := { st with height := height }
    (st'.rootHash, st')

/-- Sibling hashes and 0/1 position tags collected from a leaf index up to
the root, mirroring `merkletree.GetMerklePath`'s parent walk (tag 1 when
the current node is the left child). Position tags agree with the source
whenever sibling hashes inside a pair differ; when they coincide the
appended hash is the same either way, so the observable proof bytes always
agree. -/
def pathFromLevel (p : Prims) : Nat → List (List Nat) → Nat → List (List Nat) × List Int
  | _, [], _ => ([], [])
  | _, [_], _ => ([], [])
  | 0, _ :: _ :: _, _ => ([], [])
  | fuel + 1, x :: y :: rest, i =>
    let lvl := x :: y :: rest
    let step : List Nat × Int :=
      if i % 2 = 0 then
        if i + 1 < lvl.length then (lvl.getD (i + 1) [], 1) else (lvl.getD i [], 1)
      else (lvl.getD (i - 1) [], 0)
    let next := pathFromLevel p fuel (nextLevel p lvl) (i / 2)
    (step.1 :: next.1, step.2 :: next.2)

/-- Model of `MerkleTree.GetMerklePath`: locate the first leaf whose
content equals the target (cbergoon's `Equals` is Go struct equality),
then walk to the root; an absent content is the "unable to find Content
in merkle tree" error — in particular every lookup in the zero tree
fails. -/
def GetMerklePath (p : Prims) (t : MTree) (target : TicketTx) :
    Except TErr (List (List Nat) × List Int) :=
  match t.content.findIdx? (fun c => c = target) with
  | none => .error (.other "unable to find Content in merkle tree")
  | some i => .ok (pathFromLevel p (leafHashes p t.content).length (leafHashes p t.content) i)

/-- Decimal digit value, as consumed by `strconv`. -/
def digitVal (c : Char) : Option Nat :=
  if '0' ≤ c ∧ c ≤ '9' then some (c.toNat - 48) else none

/-- Accumulating decimal parse of a digit string. -/
def parseDigitsAux : List Char → Nat → Option Nat
  | [], acc => some acc
  | c :: cs, acc =>
    match digitVal c with
    | some d => parseDigitsAux cs (acc * 10 + d)
    | none => none

/-- Parse a non-empty all-digit string. -/
def parseDigits : List Char → Option Nat
  | [] => none
  | cs => parseDigitsAux cs 0

/-- Model of `strconv.ParseUint(s, 10, 64)`: digits only (no sign), value
below `2^64`. -/
def parseUint64 (cs : List Char) : Except String Nat :=
  match parseDigits cs with
  | none => .error "invalid syntax"
  | some n => if n < 2 ^ 64 then .ok n else .error "value out of range"

/-- Model of `strconv.ParseInt(s, 10, 64)`: optional sign, then digits,
value within the `int64` range. -/
def parseInt64 (cs : List Char) : Except String Int :=
  match cs with
  | [] => .error "invalid syntax"
  | c :: rest =>
    if c = '+' then
      match parseDigits rest with
      | none => .error "invalid syntax"
      | some n => if n ≤ 2 ^ 63 - 1 then .ok (n : Int) else .error "value out of range"
    else if c = '-' then
      match parseDigits rest with
      | none => .error "invalid syntax"
      | some n => if n ≤ 2 ^ 63 then .ok (-(n : Int)) else .error "value out of range"
    else
      match parseDigits (c :: rest) with
      | none => .error "invalid syntax"
      | some n => if n ≤ 2 ^ 63 - 1 then .ok (n : Int) else .error "value out of range"

/-- Model of `strings.Split` with a one-character separator. -/
def goSplit (sep : Char) : List Char → List (List Char)
  | [] => [[]]
  | c :: cs =>
    match goSplit sep cs with
    | [] => [[]]
    | piece :: pieces => if c = sep then [] :: piece :: pieces else (c :: piece) :: pieces

/-- Model of `parseTicketQuery`: split on colons, parse the id, default
the height to the current height when no colon is present. -/
def parseTicketQuery (queryData : List Char) (currentHeight : Int) : Except TErr (Nat × Int) :=
  let params := goSplit ':' queryData
  match parseUint64 (params.headD []) with
  | .error e => .error (.other e)
  | .ok ticketId =>
    if params.length = 1 then .ok (ticketId, currentHeight)
    else
      match parseInt64 (params.getD 1 []) with
      | .error e => .error (.other e)
      | .ok height => .ok (ticketId, height)

/-- Model of `ticket.findLastChangeBeforeHeight`: scan `ChangeHeights`
from the back, return the first entry `≤ height`, else the
ticket-not-found error. -/
def findLastChangeBeforeHeight (tk : ticket) (height : Int) : Except TErr Int :=
  match tk.ChangeHeights.reverse.find? (fun x => decide (x ≤ height)) with
  | some h => .ok h
  | none => .error .notFound

/-- Model of `state.findTicketAtHeight`: parse the query, locate the last
change at or before the height, read the snapshot at that height and
produce the hex-encoded Merkle proof of the ticket in the snapshot's tree
(the 0/1 index component of the path is discarded, as in the source). -/
def findTicketAtHeight (p : Prims) (st : state) (queryData : List Char) :
    Except TErr (ticket × List String) :=
  match parseTicketQuery queryData st.height with
  | .error e => .error e
  | .ok (ticketId, height) =>
    match findLastChangeBeforeHeight (st.tickets ticketId) height with
    | .error e => .error e
    | .ok lastTicketChange =>
      let snap := (st.history lastTicketChange).getD zeroSnapshot
      let tk := snap.tickets ticketId
      match GetMerklePath p snap.tree tk.tx with
      | .error e => .error e
      | .ok pr => .ok (tk, pr.1.map hexEncode)

/-- JSON values, as far as `encoding/json.Marshal` produces them here. -/
inductive Json where
  | num (n : Int)
  | str (s : String)
  | arr (elems : List Json)
  | obj (fields : List (String × Json))

/-- Keys of a JSON object (empty for non-objects). -/
def Json.keys : Json → List String
  | .obj fields => fields.map Prod.fst
  | _ => []

/-- Marshalling of a `TicketTx`, following the struct's `json:` tags in
field order. -/
def marshalTicketTx (t : TicketTx) : Json :=
  .obj [("id", .num t.Id), ("nonce", .num t.Nonce), ("details", .str t.Details),
    ("ownerAddr", .str t.OwnerAddr), ("prevOwnerProof", .str t.PrevOwnerProof)]

/-- Marshalling of a `ticket`: the embedded transaction under the
`ticketTx` tag plus `changeHeights`. -/
def marshalTicket (t : ticket) : Json :=
  .obj [("ticketTx", marshalTicketTx t.tx), ("changeHeights", .arr (t.ChangeHeights.map Json.num))]

/-- Marshalling of `TicketReposnse` (struct name kept with the source's
spelling): exactly the two tagged fields `ticket` and `merkleProof`. -/
def TicketReposnse (tk : ticket) (merkleProof : List String) : Json :=
  .obj [("ticket", marshalTicket tk), ("merkleProof", .arr (merkleProof.map Json.str))]

/-- Query response value: raw decimal bytes (the `hash`/`tx` paths) or
marshalled JSON bytes (the `ticket` path). -/
inductive QVal where
  | raw (s : String)
  | json (j : Json)

/-- Model of `types.ResponseQuery`, with the Go zero values. -/
structure ResponseQuery where
  code : Nat
  value : Option QVal
  log : String

/-- Model of `TicketStoreApplication.Query`. The failing `ticket` branch
interpolates the request data into a fixed log and leaves code and value
at their zero defaults; the request data, a byte slice in Go, is carried
here as its character content (Go's `%v` verb renders the slice as
bracketed decimal byte values, a formatting detail this model flattens to
the corresponding string). -/
def Query (p : Prims) (st : state) (path : String) (data : List Char) : ResponseQuery :=
  if path = "hash" then ⟨0, some (.raw (toString st.height)), ""⟩
  else if path = "tx" then ⟨0, some (.raw (toString st.size)), ""⟩
  else if path = "ticket" then
    match findTicketAtHeight p st data with
    | .error _ => ⟨0, none, String.mk data ++ " is not a valid ticket id"⟩
    | .ok (tk, merkleProof) => ⟨0, some (.json (TicketReposnse tk merkleProof)), ""⟩
  else ⟨0, none, "Invalid query path. Expected hash or tx, got " ++ path⟩

/-- A driver step: a DeliverTx with the given parse result, or a Commit. -/
inductive Op where
  | deliver (parsed : Except String TicketTx)
  | commitOp

/-- State transition of one driver step; a crashed DeliverTx leaves no
next state, the driver stops there (modelled as the state unchanged). -/
def execOp (p : Prims) (st : state) : Op → state
  | .deliver parsed =>
    match DeliverTx p parsed st with
    | .resp _ _ st' => st'
    | .crash => st
  | .commitOp => (Commit p st).2

/-- Run a sequence of driver steps. -/
def execOps (p : Prims) (st : state) (ops : List Op) : state :=
  ops.foldl (execOp p) st

/-- App-hashes (Commit return values) produced along a run. -/
def appHashes (p : Prims) (st : state) : List Op → List (List Nat)
  | [] => []
  | .deliver parsed :: ops => appHashes p (execOp p st (.deliver parsed)) ops
  | .commitOp :: ops => (Commit p st).1 :: appHashes p (execOp p st .commitOp) ops

/-- Concrete primitives for witness runs: any instantiation works for the
universally quantified theorems; this one recovers the address `0xAA`
from every signature. -/
def demoPrims : Prims :=
  ⟨fun _ _ => .ok "0xAA", fun t => [t.Id % 256, t.Nonce % 256], fun a b => a ++ b⟩

/-- Genesis sale of ticket 1 (spec scenario 1). -/
def gTx : TicketTx := ⟨1, 1, "ticket", "0xaa", "0x"⟩

/-- Resale of ticket 1 with a well-formed 65-byte proof. -/
def rTx : TicketTx := ⟨1, 2, "ticket", "0xbb", String.mk ('0' :: 'x' :: List.replicate 130 '1')⟩

/-- State after delivering the genesis sale to a fresh instance. -/
def demoS1 : state := execOp demoPrims freshState (.deliver (.ok gTx))

/-- State after additionally delivering the resale in the same block. -/
def demoS2 : state := execOp demoPrims demoS1 (.deliver (.ok rTx))

/-- State after delivering the genesis sale and committing the block. -/
def demoCommitted : state := execOps demoPrims freshState [.deliver (.ok gTx), .commitOp]

/-- C1: `validate(next, prev)` evaluates its rules in order with the first
failure winning: an empty `next.ownerAddr` gives `BadAddress`; otherwise
`next.nonce ≤ prev.nonce` gives `BadNonce`; otherwise, when
`prev.ownerAddr` is non-empty and the signer of `next.prevOwnerProof`
over `canonicalHash(prev)` is recovered, the result is `BadSignature`
exactly when the recovered address differs from `prev.ownerAddr` after
case-folding both to lowercase (the recovered side is lowercased inside
`getOwnerProofSigner`); with `prev.ownerAddr` empty the transaction is
accepted regardless of `prevOwnerProof`. -/
theorem validate_rules_in_order (p : Prims) (tk prevTicket : TicketTx) :
    (tk.OwnerAddr = "" → validate p tk prevTicket = .err .badAddress) ∧
    (tk.OwnerAddr ≠ "" → tk.Nonce ≤ prevTicket.Nonce →
      validate p tk prevTicket = .err .badNonce) ∧
    (∀ signer, tk.OwnerAddr ≠ "" → prevTicket.Nonce < tk.Nonce → prevTicket.OwnerAddr ≠ "" →
      getOwnerProofSigner p tk (p.calcHash prevTicket) = .ok signer →
      (validate p tk prevTicket = .err .badSignature ↔ signer ≠ goToLower prevTicket.OwnerAddr) ∧
      (validate p tk prevTicket = .ok ↔ signer = goToLower prevTicket.OwnerAddr)) ∧
    (tk.OwnerAddr ≠ "" → prevTicket.Nonce < tk.Nonce → prevTicket.OwnerAddr = "" →
      validate p tk prevTicket = .ok) := by
  refine ⟨fun h => by simp [validate, h], fun h1 h2 => by simp [validate, h1, h2], ?_, ?_⟩
  · intro signer h1 h2 h3 h4
    have hn : ¬ tk.Nonce ≤ prevTicket.Nonce := by omega
    have hv : validate p tk prevTicket =
        if signer ≠ goToLower prevTicket.OwnerAddr then .err .badSignature else .ok := by
      simp [validate, h1, hn, h3, h4]
    by_cases he : signer = goToLower prevTicket.OwnerAddr
    · rw [hv, if_neg (by simpa using he)]
      exact ⟨by simp [he], by simp [he]⟩
    · rw [hv, if_pos he]
      exact ⟨by simp [he], by simp [he]⟩
  · intro h1 h2 h3
    have hn : ¬ tk.Nonce ≤ prevTicket.Nonce := by omega
    simp [validate, h1, hn, h3]

/-- Witness for C1: each branch of `validate_rules_in_order` evaluated at
concrete tickets — rejection of an empty address and of a stale nonce,
acceptance of a matching recovered signer, and acceptance of a first
sale without any proof. -/
theorem validate_rules_in_order_witness :
    validate demoPrims ⟨1, 1, "", "", ""⟩ zeroTx = .err .badAddress ∧
    validate demoPrims gTx gTx = .err .badNonce ∧
    validate demoPrims rTx gTx = .ok ∧
    validate demoPrims gTx zeroTx = .ok := by
  refine ⟨(validate_rules_in_order demoPrims ⟨1, 1, "", "", ""⟩ zeroTx).1 rfl,
    (validate_rules_in_order demoPrims gTx gTx).2.1 (by decide) (by decide),
    ((validate_rules_in_order demoPrims rTx gTx).2.2.1 "0xaa" (by decide) (by decide)
      (by decide) (by rfl)).2.mpr (by decide),
    (validate_rules_in_order demoPrims gTx zeroTx).2.2.2 (by decide) (by decide) rfl⟩

/-- C6 (code bug): the spec promises that no input is fatal, but a resale
whose `prevOwnerProof` decodes to fewer than 65 bytes — here the literal
`"0x"` — drives `bytesProof[64] -= 27` into an index-out-of-range panic:
both DeliverTx and CheckTx crash instead of returning a coded response. -/
theorem short_proof_resale_crashes :
    DeliverTx demoPrims (.ok ⟨1, 2, "ticket", "0xbb", "0x"⟩) demoS1 = .crash ∧
    CheckTx demoPrims (.ok ⟨1, 2, "ticket", "0xbb", "0x"⟩) demoS1 = .crash :=
  ⟨rfl, rfl⟩

/-- C8 counterexample: a resale whose `prevOwnerProof` is not valid hex is
rejected by DeliverTx and CheckTx with code 2 (TicketError, the hex error
propagating out of `validate`), not code 1 (EncodingError) as claimed. -/
theorem bad_hex_resale_gets_code_two :
    DeliverTx demoPrims (.ok ⟨1, 2, "ticket", "0xbb", "0xzz"⟩) demoS1 =
      .resp 2 "invalid hex string" demoS1 ∧
    CheckTx demoPrims (.ok ⟨1, 2, "ticket", "0xbb", "0xzz"⟩) demoS1 =
      .resp 2 "invalid hex string" demoS1 ∧
    (2 : Nat) ≠ 1 :=
  ⟨rfl, rfl, by decide⟩

/-- C8 amended: DeliverTx and CheckTx return code 1 exactly when the JSON
itself failed to parse; absent fields are zero-filled by the decoder
rather than rejected, and invalid hex in `prevOwnerProof` surfaces as a
TicketError (code 2) out of `validate` (or as a crash when the decoded
proof is shorter than 65 bytes). -/
theorem code_one_iff_malformed_json (p : Prims) (parsed : Except String TicketTx) (st : state) :
    ((∃ log st', DeliverTx p parsed st = .resp 1 log st') ↔ ∃ e, parsed = .error e) ∧
    ((∃ log st', CheckTx p parsed st = .resp 1 log st') ↔ ∃ e, parsed = .error e) := by
  constructor
  · constructor
    · rintro ⟨log, st', h⟩
      cases parsed with
      | error e => exact ⟨e, rfl⟩
      | ok tk =>
        rcases hv : validate p tk (st.tickets tk.Id).tx with _ | e | _ <;>
          simp [DeliverTx, hv] at h
    · rintro ⟨e, rfl⟩
      exact ⟨e, st, rfl⟩
  · constructor
    · rintro ⟨log, st', h⟩
      cases parsed with
      | error e => exact ⟨e, rfl⟩
      | ok tk =>
        rcases hv : validate p tk (st.tickets tk.Id).tx with _ | e | _ <;>
          simp [CheckTx, hv] at h
    · rintro ⟨e, rfl⟩
      exact ⟨e, st, rfl⟩

/-- Witness for C8's amended claim: a JSON parse failure yields code 1,
while a successfully parsed transaction never does. -/
theorem code_one_iff_malformed_json_witness :
    (∃ log st', DeliverTx demoPrims (.error "bad json") freshState = .resp 1 log st') ∧
    ¬ ∃ log st', DeliverTx demoPrims (.ok gTx) freshState = .resp 1 log st' := by
  constructor
  · exact (code_one_iff_malformed_json demoPrims (.error "bad json") freshState).1.mpr
      ⟨"bad json", rfl⟩
  · intro hcontra
    rcases (code_one_iff_malformed_json demoPrims (.ok gTx) freshState).1.mp hcontra with ⟨e, he⟩
    cases he

/-- C9: whenever DeliverTx returns a non-zero code, the threaded state is
exactly the state before the call, and CheckTx returns its state
unchanged for every input and code. -/
theorem rejection_mutates_nothing (p : Prims) (parsed : Except String TicketTx) (st : state) :
    (∀ code log st', DeliverTx p parsed st = .resp code log st' → code ≠ 0 → st' = st) ∧
    (∀ code log st', CheckTx p parsed st = .resp code log st' → st' = st) := by
  constructor
  · intro code log st' h hc
    cases parsed with
    | error e =>
      simp only [DeliverTx, DOut.resp.injEq] at h
      exact h.2.2.symm
    | ok tk =>
      rcases hv : validate p tk (st.tickets tk.Id).tx with _ | e | _ <;>
        simp [DeliverTx, hv] at h
      · exact absurd h.1.symm hc
      · exact h.2.2.symm
  · intro code log st' h
    cases parsed with
    | error e =>
      simp only [CheckTx, DOut.resp.injEq] at h
      exact h.2.2.symm
    | ok tk =>
      rcases hv : validate p tk (st.tickets tk.Id).tx with _ | e | _ <;>
        simp [CheckTx, hv] at h
      · exact h.2.2.symm
      · exact h.2.2.symm

/-- Witness for C9: a malformed transaction delivered to a fresh instance
answers with code 1 and the theorem yields that the state is untouched;
the same holds for a CheckTx rejection. -/
theorem rejection_mutates_nothing_witness :
    (∃ st', DeliverTx demoPrims (.error "oops") freshState = .resp 1 "oops" st' ∧
      st' = freshState) ∧
    (∃ st', CheckTx demoPrims (.ok gTx) demoS1 = .resp 2 TErr.badNonce.msg st' ∧
      st' = demoS1) :=
  ⟨⟨freshState, rfl,
      (rejection_mutates_nothing demoPrims (.error "oops") freshState).1 1 "oops" freshState
        rfl (by decide)⟩,
    ⟨demoS1, rfl,
      (rejection_mutates_nothing demoPrims (.ok gTx) demoS1).2 2 TErr.badNonce.msg demoS1 rfl⟩⟩

/-- C4 counterexample: from a fresh instance, a genesis sale and a
validly signed resale of the same ticket are both accepted (code 0)
within one block, after which the ticket's `changeHeights` is `[1, 1]` —
not strictly increasing. -/
theorem same_block_resale_duplicates_height :
    DeliverTx demoPrims (.ok gTx) freshState = .resp 0 "" demoS1 ∧
    DeliverTx demoPrims (.ok rTx) demoS1 = .resp 0 "" demoS2 ∧
    (demoS2.tickets 1).ChangeHeights = [1, 1] ∧
    ¬ List.Chain' (· < ·) ((demoS2.tickets 1).ChangeHeights) := by
  refine ⟨rfl, rfl, by decide, ?_⟩
  have h : (demoS2.tickets 1).ChangeHeights = [1, 1] := by decide
  rw [h, List.chain'_cons]
  intro hc
  exact absurd hc.1 (by decide)

/-- Auxiliary invariant for C4: every ticket's change list is
non-decreasing and bounded by the next block height. -/
def HeightsInv (st : state) : Prop :=
  ∀ n, List.Chain' (· ≤ ·) ((st.tickets n).ChangeHeights) ∧
    ∀ x ∈ (st.tickets n).ChangeHeights, x ≤ st.height + 1

theorem heightsInv_fresh : HeightsInv freshState := by
  intro n
  constructor <;> simp [freshState, zeroTicket]

theorem mem_of_getLastEq {l : List Int} {x : Int} (h : l.getLast? = some x) : x ∈ l := by
  induction l with
  | nil => simp at h
  | cons a l ih =>
    cases l with
    | nil => simp_all
    | cons b l =>
      rw [List.getLast?_cons_cons] at h
      exact List.mem_cons_of_mem _ (ih h)

theorem chain_le_append_last {l : List Int} {a : Int} (hl : List.Chain' (· ≤ ·) l)
    (hb : ∀ x ∈ l, x ≤ a) : List.Chain' (· ≤ ·) (l ++ [a]) := by
  rw [List.chain'_append]
  refine ⟨hl, List.chain'_singleton _, ?_⟩
  intro x hx y hy
  simp only [List.head?_cons, Option.mem_def, Option.some.injEq] at hy
  subst hy
  exact hb x (mem_of_getLastEq hx)

theorem heightsInv_execOp (p : Prims) (st : state) (op : Op) (h : HeightsInv st) :
    HeightsInv (execOp p st op) := by
  cases op with
  | commitOp =>
    intro n
    have hn := h n
    unfold execOp Commit
    by_cases hc : st.tempTreeContent.length > 0 <;>
      simp only [hc, reduceIte] <;>
      exact ⟨hn.1, fun x hx => by have := hn.2 x hx; omega⟩
  | deliver parsed =>
    cases parsed with
    | error e => simpa [execOp, DeliverTx] using h
    | ok tk =>
      rcases hv : validate p tk (st.tickets tk.Id).tx with _ | e | _ <;>
        simp only [execOp, DeliverTx, hv] <;> try exact h
      intro n
      have hold := h tk.Id
      by_cases hn : n = tk.Id
      · rw [hn]
        simp only [if_pos rfl]
        constructor
        · exact chain_le_append_last hold.1 hold.2
        · intro x hx
          rcases List.mem_append.mp hx with hx | hx
          · exact hold.2 x hx
          · simp only [List.mem_singleton] at hx
            omega
      · simp only [if_neg hn]
        exact h n

/-- C4 amended: for every sequence of DeliverTx and Commit calls from a
fresh instance, every ticket's `changeHeights` is non-decreasing; strict
increase fails precisely because two transactions for the same id
accepted within one block record the same height twice (see the
counterexample). -/
theorem changeHeights_nondecreasing (p : Prims) (ops : List Op) (id : Nat) :
    List.Chain' (· ≤ ·) ((execOps p freshState ops).tickets id).ChangeHeights := by
  suffices h : ∀ st, HeightsInv st → HeightsInv (execOps p st ops) from
    (h freshState heightsInv_fresh id).1
  induction ops with
  | nil => exact fun st hst => hst
  | cons op ops ih =>
    intro st hst
    exact ih _ (heightsInv_execOp p st op hst)

/-- Witness for C4's amended claim: the duplicate-height run of the
counterexample still satisfies the non-decreasing invariant. -/
theorem changeHeights_nondecreasing_witness :
    List.Chain' (· ≤ ·) ((execOps demoPrims freshState
      [.deliver (.ok gTx), .deliver (.ok rTx), .commitOp]).tickets 1).ChangeHeights :=
  changeHeights_nondecreasing demoPrims [.deliver (.ok gTx), .deliver (.ok rTx), .commitOp] 1

/-- C2: Commit always advances the height by exactly 1 and returns the
(possibly updated) `rootHash`; with a non-empty staging list the new root
is the root of the Merkle tree whose leaves are the staging entries in
delivery order, the snapshot `(tickets, tree)` is stored at the new
height (other history entries untouched) and staging is cleared; with an
empty staging list `rootHash` and `history` are unchanged. -/
theorem commit_transition (p : Prims) (st : state) :
    (Commit p st).2.height = st.height + 1 ∧
    (Commit p st).1 = (Commit p st).2.rootHash ∧
    (st.tempTreeContent ≠ [] →
      (Commit p st).2.rootHash = treeRoot p st.tempTreeContent ∧
      (Commit p st).2.history (st.height + 1) = some ⟨st.tickets, ⟨st.tempTreeContent⟩⟩ ∧
      (∀ k, k ≠ st.height + 1 → (Commit p st).2.history k = st.history k) ∧
      (Commit p st).2.tempTreeContent = []) ∧
    (st.tempTreeContent = [] →
      (Commit p st).2.rootHash = st.rootHash ∧
      (Commit p st).2.history = st.history ∧
      (Commit p st).1 = st.rootHash) := by
  by_cases hc : st.tempTreeContent = []
  · have hlen : ¬ st.tempTreeContent.length > 0 := by simp [hc]
    refine ⟨by simp [Commit, hlen], by simp [Commit, hlen], fun h => absurd hc h, fun _ => ?_⟩
    exact ⟨by simp [Commit, hlen], by simp [Commit, hlen], by simp [Commit, hlen]⟩
  · have hlen : st.tempTreeContent.length > 0 := List.length_pos.mpr hc
    refine ⟨by simp [Commit, hlen], by simp [Commit, hlen], fun _ => ?_, fun h => absurd h hc⟩
    refine ⟨by simp [Commit, hlen], by simp [Commit, hlen], fun k hk => ?_, by simp [Commit, hlen]⟩
    simp [Commit, hlen, hk]

/-- Witness for C2: committing the block holding the genesis sale raises
the height to 1, installs the root of the one-leaf tree, snapshots at
height 1 and clears staging; committing the following empty block leaves
root and history unchanged. -/
theorem commit_transition_witness :
    (Commit demoPrims demoS1).2.height = demoS1.height + 1 ∧
    (Commit demoPrims demoS1).2.rootHash = treeRoot demoPrims [gTx] ∧
    (Commit demoPrims demoS1).2.history (demoS1.height + 1) =
      some ⟨demoS1.tickets, ⟨[gTx]⟩⟩ ∧
    (Commit demoPrims demoS1).2.tempTreeContent = [] ∧
    (Commit demoPrims demoCommitted).2.rootHash = demoCommitted.rootHash := by
  have h1 := commit_transition demoPrims demoS1
  have hne : demoS1.tempTreeContent ≠ [] := by decide
  have h2 := commit_transition demoPrims demoCommitted
  have he : demoCommitted.tempTreeContent = [] := by decide
  exact ⟨h1.1, (h1.2.2.1 hne).1, (h1.2.2.1 hne).2.1, (h1.2.2.1 hne).2.2.2, (h2.2.2.2 he).1⟩

/-- C5: two fresh instances driven with the same sequence of DeliverTx
and Commit calls produce identical app-hashes at every block, and end in
identical states: the run is a pure function of the delivered sequence
and the prior state. -/
theorem replay_determinism (p : Prims) (ops : List Op) (s1 s2 : state)
    (h1 : s1 = freshState) (h2 : s2 = freshState) :
    appHashes p s1 ops = appHashes p s2 ops ∧ execOps p s1 ops = execOps p s2 ops := by
  subst h1
  subst h2
  exact ⟨rfl, rfl⟩

/-- Witness for C5: replaying the genesis-sale block on two fresh
instances yields the same app-hash stream. -/
theorem replay_determinism_witness :
    appHashes demoPrims freshState [.deliver (.ok gTx), .commitOp] =
      appHashes demoPrims freshState [.deliver (.ok gTx), .commitOp] ∧
    execOps demoPrims freshState [.deliver (.ok gTx), .commitOp] =
      execOps demoPrims freshState [.deliver (.ok gTx), .commitOp] :=
  replay_determinism demoPrims [.deliver (.ok gTx), .commitOp] freshState freshState rfl rfl

/-- C10: every failing query on the `ticket` path — whatever the internal
error: unparsable id or height, unknown ticket, missing snapshot content —
produces the same response shape: the default code 0, an empty value, and
the log interpolating the request data into `is not a valid ticket id`.
The response does not depend on which error occurred, so malformed data
and a ticket absent at the requested height are indistinguishable, and
the internal `Ticket could not be found` message never surfaces. -/
theorem ticket_query_failure_uniform (p : Prims) (st : state) (data : List Char) (e : TErr)
    (h : findTicketAtHeight p st data = .error e) :
    Query p st "ticket" data = ⟨0, none, String.mk data ++ " is not a valid ticket id"⟩ := by
  simp [Query, h]

/-- Witness for C10: a non-numeric id and a valid id that was never seen
produce, via the theorem, the same-shaped code-0 response with an empty
value. -/
theorem ticket_query_failure_uniform_witness :
    Query demoPrims demoCommitted "ticket" ['x'] =
      ⟨0, none, "x is not a valid ticket id"⟩ ∧
    Query demoPrims demoCommitted "ticket" ['7'] =
      ⟨0, none, "7 is not a valid ticket id"⟩ :=
  ⟨ticket_query_failure_uniform demoPrims demoCommitted ['x'] (.other "invalid syntax") (by rfl),
    ticket_query_failure_uniform demoPrims demoCommitted ['7'] .notFound (by rfl)⟩

/-- C7 counterexample: a successful `ticket` query answers with the
marshalled `TicketReposnse`, whose JSON object holds exactly the keys
`ticket` and `merkleProof`; the claimed `index` array of 0/1 positions is
absent (the source discards `GetMerklePath`'s index component). -/
theorem ticket_query_response_lacks_index :
    Query demoPrims demoCommitted "ticket" ['1'] =
      ⟨0, some (.json (TicketReposnse ⟨gTx, [1]⟩ [hexEncode (demoPrims.calcHash gTx)])), ""⟩ ∧
    (TicketReposnse ⟨gTx, [1]⟩ [hexEncode (demoPrims.calcHash gTx)]).keys =
      ["ticket", "merkleProof"] ∧
    "index" ∉ (TicketReposnse ⟨gTx, [1]⟩ [hexEncode (demoPrims.calcHash gTx)]).keys :=
  ⟨rfl, rfl, by decide⟩

/-- C7 amended: every successful `ticket` query returns the ticket and
the hex-encoded sibling hashes under `ticket` and `merkleProof` — and
nothing else: the 0/1 left-right index positions are discarded before the
response is marshalled. -/
theorem ticket_query_response_fields (p : Prims) (st : state) (data : List Char)
    (tk : ticket) (merkleProof : List String)
    (h : findTicketAtHeight p st data = .ok (tk, merkleProof)) :
    Query p st "ticket" data = ⟨0, some (.json (TicketReposnse tk merkleProof)), ""⟩ ∧
    (TicketReposnse tk merkleProof).keys = ["ticket", "merkleProof"] := by
  exact ⟨by simp [Query, h], rfl⟩

/-- Witness for C7's amended claim: the concrete successful query for
ticket 1 after one committed block. -/
theorem ticket_query_response_fields_witness :
    Query demoPrims demoCommitted "ticket" ['1'] =
      ⟨0, some (.json (TicketReposnse ⟨gTx, [1]⟩ [hexEncode (demoPrims.calcHash gTx)])), ""⟩ ∧
    (TicketReposnse ⟨gTx, [1]⟩ [hexEncode (demoPrims.calcHash gTx)]).keys =
      ["ticket", "merkleProof"] :=
  ticket_query_response_fields demoPrims demoCommitted ['1'] ⟨gTx, [1]⟩
    [hexEncode (demoPrims.calcHash gTx)] rfl

theorem parseDigitsAux_chars : ∀ {cs : List Char} {acc n : Nat},
    parseDigitsAux cs acc = some n → ∀ c ∈ cs, digitVal c ≠ none
  | [], _, _, _ => by simp
  | c :: cs, acc, n, h => by
    intro d hd
    rcases hdc : digitVal c with _ | v
    · rw [parseDigitsAux, hdc] at h
      cases h
    · rw [parseDigitsAux, hdc] at h
      rcases List.mem_cons.mp hd with rfl | hd'
      · simp [hdc]
      · exact parseDigitsAux_chars h d hd'

theorem digit_ne_colon {c : Char} (h : digitVal c ≠ none) : c ≠ ':' := by
  intro he
  subst he
  exact h (by decide)

theorem parseUint64_no_colon {cs : List Char} {n : Nat} (h : parseUint64 cs = .ok n) :
    ∀ c ∈ cs, c ≠ ':' := by
  intro c hc
  unfold parseUint64 at h
  rcases hp : parseDigits cs with _ | v
  · rw [hp] at h
    cases h
  · cases cs with
    | nil => cases hc
    | cons c0 rest =>
      simp only [parseDigits] at hp
      exact digit_ne_colon (parseDigitsAux_chars hp c hc)

theorem parseDigits_no_colon {cs : List Char} {n : Nat} (hp : parseDigits cs = some n) :
    ∀ c ∈ cs, c ≠ ':' := by
  intro c hc
  cases cs with
  | nil => cases hc
  | cons c0 rest =>
    simp only [parseDigits] at hp
    exact digit_ne_colon (parseDigitsAux_chars hp c hc)

theorem parseInt64_no_colon {cs : List Char} {v : Int} (h : parseInt64 cs = .ok v) :
    ∀ c ∈ cs, c ≠ ':' := by
  intro c hc
  cases cs with
  | nil => cases hc
  | cons c0 rest =>
    simp only [parseInt64] at h
    by_cases h0 : c0 = '+'
    · rw [if_pos h0] at h
      rcases hp : parseDigits rest with _ | n
      · rw [hp] at h
        cases h
      · rcases List.mem_cons.mp hc with rfl | hc'
        · rw [h0]
          decide
        · exact parseDigits_no_colon hp c hc'
    · rw [if_neg h0] at h
      by_cases h1 : c0 = '-'
      · rw [if_pos h1] at h
        rcases hp : parseDigits rest with _ | n
        · rw [hp] at h
          cases h
        · rcases List.mem_cons.mp hc with rfl | hc'
          · rw [h1]
            decide
          · exact parseDigits_no_colon hp c hc'
      · rw [if_neg h1] at h
        rcases hp : parseDigits (c0 :: rest) with _ | n
        · rw [hp] at h
          cases h
        · exact parseDigits_no_colon hp c hc

theorem goSplit_ne_nil (sep : Char) : ∀ cs, goSplit sep cs ≠ []
  | [] => by simp [goSplit]
  | c :: cs => by
    have h := goSplit_ne_nil sep cs
    rcases hg : goSplit sep cs with _ | ⟨piece, pieces⟩
    · exact absurd hg h
    · by_cases hc : c = sep <;> simp [goSplit, hg, hc]

theorem goSplit_no_sep (sep : Char) : ∀ {cs}, (∀ c ∈ cs, c ≠ sep) → goSplit sep cs = [cs]
  | [], _ => rfl
  | c :: cs, h => by
    have hcs := goSplit_no_sep sep (fun d hd => h d (List.mem_cons_of_mem _ hd))
    have hc : c ≠ sep := h c (List.mem_cons_self _ _)
    simp [goSplit, hcs, hc]

theorem goSplit_append (sep : Char) : ∀ {a : List Char} (b : List Char), (∀ c ∈ a, c ≠ sep) →
    goSplit sep (a ++ sep :: b) = a :: goSplit sep b
  | [], b, _ => by
    rcases hg : goSplit sep b with _ | ⟨piece, pieces⟩
    · exact absurd hg (goSplit_ne_nil sep b)
    · simp [goSplit, hg]
  | c :: a, b, h => by
    have ih := goSplit_append sep (a := a) b (fun d hd => h d (List.mem_cons_of_mem _ hd))
    have hc : c ≠ sep := h c (List.mem_cons_self _ _)
    simp only [List.cons_append, goSplit, ih]
    simp [hc]
    rw [ih]

/-- Parsing an id-only query defaults the height to the current height. -/
theorem parseTicketQuery_defaults {idCs : List Char} {tid : Nat}
    (hid : parseUint64 idCs = .ok tid) (cur : Int) :
    parseTicketQuery idCs cur = .ok (tid, cur) := by
  have hsplit : goSplit ':' idCs = [idCs] := goSplit_no_sep ':' (parseUint64_no_colon hid)
  simp [parseTicketQuery, hsplit, hid]

/-- Parsing an `id:height` query returns both components. -/
theorem parseTicketQuery_pair {idCs hCs : List Char} {tid : Nat} {hv : Int}
    (hid : parseUint64 idCs = .ok tid) (hh : parseInt64 hCs = .ok hv) (cur : Int) :
    parseTicketQuery (idCs ++ ':' :: hCs) cur = .ok (tid, hv) := by
  have hsplit : goSplit ':' (idCs ++ ':' :: hCs) = idCs :: goSplit ':' hCs :=
    goSplit_append ':' hCs (parseUint64_no_colon hid)
  rw [goSplit_no_sep ':' (parseInt64_no_colon hh)] at hsplit
  simp [parseTicketQuery, hsplit, hid, hh]

theorem find_rev_le_iff {b m : Int} : ∀ {ch : List Int}, List.Pairwise (· ≤ ·) ch →
    (ch.reverse.find? (fun x => decide (x ≤ b)) = some m ↔
      (m ∈ ch ∧ m ≤ b ∧ ∀ x ∈ ch, x ≤ b → x ≤ m)) := by
  intro ch
  induction ch using List.reverseRecOn with
  | nil => intro _; simp
  | append_singleton l a ih =>
    intro hp
    rw [List.pairwise_append] at hp
    obtain ⟨hl, -, hla⟩ := hp
    have hla : ∀ x ∈ l, x ≤ a := fun x hx => hla x hx a (List.mem_singleton_self a)
    rw [List.reverse_append, List.reverse_singleton, List.singleton_append]
    by_cases hab : a ≤ b
    · rw [List.find?_cons_of_pos _ (by simpa using hab)]
      constructor
      · intro h
        have ham : a = m := by simpa using h
        subst ham
        refine ⟨by simp, hab, ?_⟩
        intro x hx _
        rcases List.mem_append.mp hx with hx | hx
        · exact hla x hx
        · simp only [List.mem_singleton] at hx
          omega
      · rintro ⟨hm, hmb, hmax⟩
        have h1 : a ≤ m := hmax a (by simp) hab
        have h2 : m ≤ a := by
          rcases List.mem_append.mp hm with hx | hx
          · exact hla m hx
          · simp only [List.mem_singleton] at hx
            omega
        have ham : a = m := le_antisymm h1 h2
        simp [ham]
    · rw [List.find?_cons_of_neg _ (by simpa using hab)]
      rw [ih hl]
      constructor
      · rintro ⟨hm, hmb, hmax⟩
        refine ⟨List.mem_append.mpr (Or.inl hm), hmb, ?_⟩
        intro x hx hxb
        rcases List.mem_append.mp hx with hx | hx
        · exact hmax x hx hxb
        · simp only [List.mem_singleton] at hx
          omega
      · rintro ⟨hm, hmb, hmax⟩
        have hml : m ∈ l := by
          rcases List.mem_append.mp hm with hx | hx
          · exact hx
          · simp only [List.mem_singleton] at hx
            omega
        exact ⟨hml, hmb, fun x hx hxb => hmax x (List.mem_append.mpr (Or.inl hx)) hxb⟩

/-- With a non-decreasing change list, the backward scan of
`findLastChangeBeforeHeight` returns exactly the greatest entry at or
below the bound. -/
theorem findLastChange_ok (tk : ticket) (b m : Int)
    (hs : List.Chain' (· ≤ ·) tk.ChangeHeights)
    (hm : m ∈ tk.ChangeHeights) (hmb : m ≤ b)
    (hmax : ∀ x ∈ tk.ChangeHeights, x ≤ b → x ≤ m) :
    findLastChangeBeforeHeight tk b = .ok m := by
  rw [List.chain'_iff_pairwise] at hs
  have hfind := (find_rev_le_iff hs).mpr ⟨hm, hmb, hmax⟩
  unfold findLastChangeBeforeHeight
  rw [hfind]

/-- When every entry of the change list lies above the bound — in
particular when the list is empty because the ticket was never seen —
the scan fails with the ticket-not-found error. -/
theorem findLastChange_err (tk : ticket) (b : Int)
    (hall : ∀ x ∈ tk.ChangeHeights, b < x) :
    findLastChangeBeforeHeight tk b = .error .notFound := by
  have hfind : tk.ChangeHeights.reverse.find? (fun x => decide (x ≤ b)) = none := by
    rw [List.find?_eq_none]
    intro x hx
    have := hall x (List.mem_reverse.mp hx)
    simp only [decide_eq_true_eq]
    omega
  unfold findLastChangeBeforeHeight
  rw [hfind]

/-- C3: for every historical ticket query, a bare `<id>` parses with the
height defaulting to the current height and `<id>:<height>` parses into
both components; for any query data parsing to `(id, h)`, when the
ticket's `changeHeights` holds a greatest entry `m ≤ h` the lookup
returns the ticket stored in the snapshot `history[m]` together with its
hex-encoded Merkle inclusion proof from that snapshot's tree, and when
every entry exceeds `h` (ticket never seen, or only changed later) it
fails with `TicketNotFound`. -/
theorem historical_query_lookup (p : Prims) (st : state) (idCs hCs : List Char)
    (tid : Nat) (hgt : Int)
    (hid : parseUint64 idCs = .ok tid) (hh : parseInt64 hCs = .ok hgt)
    (hs : List.Chain' (· ≤ ·) ((st.tickets tid).ChangeHeights)) :
    parseTicketQuery idCs st.height = .ok (tid, st.height) ∧
    parseTicketQuery (idCs ++ ':' :: hCs) st.height = .ok (tid, hgt) ∧
    (∀ data hq, parseTicketQuery data st.height = .ok (tid, hq) →
      (∀ m, m ∈ (st.tickets tid).ChangeHeights → m ≤ hq →
        (∀ x ∈ (st.tickets tid).ChangeHeights, x ≤ hq → x ≤ m) →
        findTicketAtHeight p st data =
          (match GetMerklePath p ((st.history m).getD zeroSnapshot).tree
              (((st.history m).getD zeroSnapshot).tickets tid).tx with
           | .error e => .error e
           | .ok pr => .ok (((st.history m).getD zeroSnapshot).tickets tid,
               pr.1.map hexEncode))) ∧
      ((∀ x ∈ (st.tickets tid).ChangeHeights, hq < x) →
        findTicketAtHeight p st data = .error .notFound)) := by
  refine ⟨parseTicketQuery_defaults hid st.height, parseTicketQuery_pair hid hh st.height, ?_⟩
  intro data hq hparse
  constructor
  · intro m hm hmb hmax
    have hfind := findLastChange_ok (st.tickets tid) hq m hs hm hmb hmax
    simp only [findTicketAtHeight, hparse, hfind]
  · intro hall
    have hfind := findLastChange_err (st.tickets tid) hq hall
    simp only [findTicketAtHeight, hparse, hfind]

/-- Witness for C3: after committing the genesis block, the query `1`
defaults to the current height, and the query `1:5` finds the change at
height 1 ≤ 5 and returns the snapshot ticket with its proof. -/
theorem historical_query_lookup_witness :
    parseTicketQuery ['1'] demoCommitted.height = .ok (1, demoCommitted.height) ∧
    findTicketAtHeight demoPrims demoCommitted ('1' :: ':' :: ['5']) =
      .ok (⟨gTx, [1]⟩, [hexEncode (demoPrims.calcHash gTx)]) := by
  have hch : (demoCommitted.tickets 1).ChangeHeights = [1] := by decide
  have H := historical_query_lookup demoPrims demoCommitted ['1'] ['5'] 1 5 (by rfl) (by rfl)
    (by rw [hch]; exact List.chain'_singleton 1)
  refine ⟨H.1, ?_⟩
  have h3 := (H.2.2 ('1' :: ':' :: ['5']) 5 H.2.1).1 1
    (by rw [hch]; exact List.mem_singleton_self 1) (by decide)
    (by rw [hch]; intro x hx _; rw [List.mem_singleton] at hx; omega)
  exact h3.trans (by rfl)

end TicketStore
